import Mathlib

/-!
Formal model of the pdf-to-beamer / pdf-to-image pipeline.

Each definition below is a shallow embedding of a function from
`pdf-to-beamer.py` or `pdf-to-image.py`.  Python floats are modelled by
rationals, Python exceptions by an explicit error type, the filesystem
by explicit directory listings and operation traces, and Python strings
by Lean strings (lists of characters).
-/

/-- Errors observable from the embedded Python code.  The constructors
`zeroDivisionError`, `attributeError`, `libraryError` and
`generationError` model exceptions the Python code (or its external
collaborators) can actually raise; `assemblyError` and
`malformedPageError` are error names that appear only in the
specification and are never produced by the code — they exist so that
specification-level statements about error types can be expressed. -/
inductive PyErr where
  | zeroDivisionError
  | attributeError
  | libraryError
  | generationError
  | assemblyError
  | malformedPageError
  deriving DecidableEq

/-- A raw text-block bounding box, as produced by
`page.get_text("blocks")` and consumed by the normalization loop in
`extract_pdf_content` (`pdf-to-beamer.py`, lines 40–47): corners
`(x0, y0, x1, y1)`. -/
structure RawBlock where
  x0 : ℚ
  y0 : ℚ
  x1 : ℚ
  y1 : ℚ
  deriving DecidableEq

/-- The normalized geometry of one text block, i.e. the `x`, `y`,
`width` entries built by `extract_pdf_content`. -/
structure NormElem where
  x : ℚ
  y : ℚ
  width : ℚ
  deriving DecidableEq

/-- Embedding of the normalization of one block in `extract_pdf_content`:
`x = x0 / page.rect.width`, `y = 1 - y1 / page.rect.height`,
`width = (x1 - x0) / page.rect.width`.  In Python, division by a zero
dimension raises `ZeroDivisionError`; the `x` entry is computed first,
so a zero width is detected before a zero height. -/
def normBox (W H : ℚ) (b : RawBlock) : Except PyErr NormElem :=
  if W = 0 then .error .zeroDivisionError
  else if H = 0 then .error .zeroDivisionError
  else .ok ⟨b.x0 / W, 1 - b.y1 / H, (b.x1 - b.x0) / W⟩

/-- Embedding of the `for block in text_blocks` loop of
`extract_pdf_content`: blocks are normalized in order, and the first
exception aborts the whole loop. -/
def extractTextElements (W H : ℚ) : List RawBlock → Except PyErr (List NormElem)
  | [] => .ok []
  | b :: rest =>
    match normBox W H b with
    | .error e => .error e
    | .ok el =>
      match extractTextElements W H rest with
      | .error e => .error e
      | .ok els => .ok (el :: els)

/-- C4: for every raw bounding box with `0 ≤ x0 ≤ x1 ≤ W` and
`0 ≤ y0 ≤ y1 ≤ H` and positive page dimensions, the normalizer in
`extract_pdf_content` produces exactly
`{x := x0 / W, y := 1 - y1 / H, width := (x1 - x0) / W}`, and each of
`x`, `y`, `width` lies in `[0, 1]`. -/
theorem normBox_formula_and_bounds (W H : ℚ) (b : RawBlock)
    (hx0 : 0 ≤ b.x0) (hx01 : b.x0 ≤ b.x1) (hx1 : b.x1 ≤ W)
    (hy0 : 0 ≤ b.y0) (hy01 : b.y0 ≤ b.y1) (hy1 : b.y1 ≤ H)
    (hW : 0 < W) (hH : 0 < H) :
    normBox W H b = .ok ⟨b.x0 / W, 1 - b.y1 / H, (b.x1 - b.x0) / W⟩ ∧
    0 ≤ b.x0 / W ∧ b.x0 / W ≤ 1 ∧
    0 ≤ 1 - b.y1 / H ∧ 1 - b.y1 / H ≤ 1 ∧
    0 ≤ (b.x1 - b.x0) / W ∧ (b.x1 - b.x0) / W ≤ 1 := by
  refine ⟨?_, ?_, ?_, ?_, ?_, ?_, ?_⟩
  · unfold normBox
    rw [if_neg (ne_of_gt hW), if_neg (ne_of_gt hH)]
  · exact div_nonneg hx0 (le_of_lt hW)
  · exact (div_le_one hW).mpr (le_trans hx01 hx1)
  · exact sub_nonneg.mpr ((div_le_one hH).mpr hy1)
  · have h0 : 0 ≤ b.y1 / H := div_nonneg (le_trans hy0 hy01) (le_of_lt hH)
    linarith
  · exact div_nonneg (sub_nonneg.mpr hx01) (le_of_lt hW)
  · refine (div_le_one hW).mpr ?_
    linarith

/-- Witness for `normBox_formula_and_bounds` at the concrete box
`(1, 1, 3, 4)` on a `4 × 5` page. -/
theorem normBox_formula_and_bounds_witness :
    normBox 4 5 ⟨1, 1, 3, 4⟩ = .ok ⟨(1 : ℚ) / 4, 1 - 4 / 5, ((3 : ℚ) - 1) / 4⟩ ∧
    (0 : ℚ) ≤ 1 / 4 ∧ (1 : ℚ) / 4 ≤ 1 ∧
    (0 : ℚ) ≤ 1 - 4 / 5 ∧ (1 : ℚ) - 4 / 5 ≤ 1 ∧
    (0 : ℚ) ≤ (3 - 1) / 4 ∧ ((3 : ℚ) - 1) / 4 ≤ 1 :=
  normBox_formula_and_bounds 4 5 ⟨1, 1, 3, 4⟩ (by norm_num) (by norm_num)
    (by norm_num) (by norm_num) (by norm_num) (by norm_num) (by norm_num)
    (by norm_num)

/-- Counterexample to C7: with zero page width the code does not fail
fast with a `MalformedPageError`.  A page with no text blocks raises
nothing at all, and once a text block is present the error raised is an
untyped `ZeroDivisionError`, not a `MalformedPageError`. -/
theorem normalize_zero_dims_not_malformed_error :
    extractTextElements 0 5 [] = .ok [] ∧
    normBox 0 5 ⟨1, 1, 3, 4⟩ = .error .zeroDivisionError ∧
    (Except.error PyErr.zeroDivisionError : Except PyErr NormElem) ≠
      .error .malformedPageError := by
  refine ⟨rfl, ?_, fun h => PyErr.noConfusion (Except.error.inj h)⟩
  unfold normBox
  rw [if_pos rfl]

/-- C7 (amended): if `W = 0` or `H = 0` and the page has at least one
text block, normalization in `extract_pdf_content` fails with a
`ZeroDivisionError`; with no text blocks no error is raised at all. -/
theorem extract_zero_dims_zero_division (W H : ℚ) (blocks : List RawBlock)
    (hdim : W = 0 ∨ H = 0) (hne : blocks ≠ []) :
    extractTextElements W H blocks = .error .zeroDivisionError := by
  cases blocks with
  | nil => exact absurd rfl hne
  | cons b rest =>
    have hb : normBox W H b = .error .zeroDivisionError := by
      unfold normBox
      rcases hdim with h | h
      · rw [if_pos h]
      · by_cases hw : W = 0
        · rw [if_pos hw]
        · rw [if_neg hw, if_pos h]
    unfold extractTextElements
    rw [hb]

/-- Witness for `extract_zero_dims_zero_division` on a one-block page
with zero width. -/
theorem extract_zero_dims_zero_division_witness :
    extractTextElements 0 5 [⟨1, 1, 3, 4⟩] = .error .zeroDivisionError :=
  extract_zero_dims_zero_division 0 5 [⟨1, 1, 3, 4⟩] (Or.inl rfl)
    (List.cons_ne_nil _ _)

/-- Fuel-driven model of Python's decimal `str` on natural numbers: the
decimal digits of `n`, most significant first.  The fuel argument makes
the recursion structural; `digitsMSD` supplies fuel `n`, which is
always sufficient. -/
def digitsMSDAux : Nat → Nat → List Nat
  | 0, n => [n]
  | fuel + 1, n => if n < 10 then [n] else digitsMSDAux fuel (n / 10) ++ [n % 10]

/-- The decimal digits of `n`, most significant first; `[0]` for `0`,
matching Python's `str(0) = "0"`. -/
def digitsMSD (n : Nat) : List Nat := digitsMSDAux n n

theorem digitsMSDAux_small (g n : Nat) (h : n < 10) : digitsMSDAux g n = [n] := by
  cases g with
  | zero => rfl
  | succ g => simp [digitsMSDAux, h]

theorem digitsMSDAux_congr : ∀ f g n : Nat, n ≤ f → n ≤ g →
    digitsMSDAux f n = digitsMSDAux g n := by
  intro f
  induction f with
  | zero =>
    intro g n hf _
    have hn : n = 0 := Nat.le_zero.mp hf
    subst hn
    rw [digitsMSDAux_small 0 0 (by omega), digitsMSDAux_small g 0 (by omega)]
  | succ f ih =>
    intro g n hf hg
    by_cases h10 : n < 10
    · rw [digitsMSDAux_small _ _ h10, digitsMSDAux_small _ _ h10]
    · cases g with
      | zero => omega
      | succ g =>
        have hdiv : n / 10 < n := Nat.div_lt_self (by omega) (by omega)
        show (if n < 10 then [n] else digitsMSDAux f (n / 10) ++ [n % 10]) =
          (if n < 10 then [n] else digitsMSDAux g (n / 10) ++ [n % 10])
        rw [if_neg h10, if_neg h10, ih g (n / 10) (by omega) (by omega)]

/-- Unfolding equation for `digitsMSD`. -/
theorem digitsMSD_eq (n : Nat) : digitsMSD n =
    if n < 10 then [n] else digitsMSD (n / 10) ++ [n % 10] := by
  by_cases h10 : n < 10
  · rw [if_pos h10]
    exact digitsMSDAux_small n n h10
  · rw [if_neg h10]
    obtain ⟨m, rfl⟩ : ∃ m, n = m + 1 := ⟨n - 1, by omega⟩
    show (if m + 1 < 10 then [m + 1]
      else digitsMSDAux m ((m + 1) / 10) ++ [(m + 1) % 10]) = _
    rw [if_neg h10]
    have hdiv : (m + 1) / 10 < m + 1 := Nat.div_lt_self (by omega) (by omega)
    rw [digitsMSDAux_congr m ((m + 1) / 10) ((m + 1) / 10) (by omega) (le_refl _)]
    rfl

theorem digitsMSD_lt10 (n : Nat) : ∀ d ∈ digitsMSD n, d < 10 := by
  induction n using Nat.strong_induction_on with
  | _ n ih =>
    rw [digitsMSD_eq]
    by_cases h : n < 10
    · rw [if_pos h]
      intro d hd
      rw [List.mem_singleton] at hd
      omega
    · rw [if_neg h]
      intro d hd
      rcases List.mem_append.mp hd with h1 | h2
      · exact ih (n / 10) (Nat.div_lt_self (by omega) (by omega)) d h1
      · rw [List.mem_singleton] at h2
        omega

theorem digitsMSD_length_pos (n : Nat) : 0 < (digitsMSD n).length := by
  rw [digitsMSD_eq]
  by_cases h : n < 10 <;> simp [h]

theorem digitsMSD_length_mono : ∀ n m : Nat, m ≤ n →
    (digitsMSD m).length ≤ (digitsMSD n).length := by
  intro n
  induction n using Nat.strong_induction_on with
  | _ n ih =>
    intro m hmn
    by_cases hn : n < 10
    · rw [digitsMSD_eq m, digitsMSD_eq n, if_pos (by omega : m < 10), if_pos hn]
      simp
    · rw [digitsMSD_eq n, if_neg hn]
      by_cases hm : m < 10
      · rw [digitsMSD_eq m, if_pos hm]
        have := digitsMSD_length_pos (n / 10)
        simp only [List.length_append, List.length_singleton]
        omega
      · rw [digitsMSD_eq m, if_neg hm]
        simp only [List.length_append, List.length_singleton]
        have := ih (n / 10) (Nat.div_lt_self (by omega) (by omega)) (m / 10)
          (Nat.div_le_div_right hmn)
        omega

/-- Numeric value of a most-significant-first decimal digit list. -/
def valD (ds : List Nat) : Nat := ds.foldl (fun a d => 10 * a + d) 0

theorem foldl_val_eq (l : List Nat) : ∀ a : Nat,
    l.foldl (fun a d => 10 * a + d) a = a * 10 ^ l.length + valD l := by
  induction l with
  | nil =>
    intro a
    simp [valD]
  | cons d t ih =>
    intro a
    have h1 : (d :: t).foldl (fun a d => 10 * a + d) a =
        t.foldl (fun a d => 10 * a + d) (10 * a + d) := rfl
    have h2 : valD (d :: t) = t.foldl (fun a d => 10 * a + d) (10 * 0 + d) := rfl
    rw [h1, ih (10 * a + d), h2, ih (10 * 0 + d), List.length_cons, pow_succ]
    ring

theorem valD_cons (d : Nat) (t : List Nat) :
    valD (d :: t) = d * 10 ^ t.length + valD t := by
  have h : valD (d :: t) = t.foldl (fun a x => 10 * a + x) (10 * 0 + d) := rfl
  rw [h, foldl_val_eq, Nat.mul_zero, Nat.zero_add]

theorem valD_lt (l : List Nat) (h : ∀ d ∈ l, d < 10) :
    valD l < 10 ^ l.length := by
  induction l with
  | nil => simp [valD]
  | cons d t ih =>
    rw [valD_cons]
    have h1 : valD t < 10 ^ t.length :=
      ih (fun x hx => h x (List.mem_cons_of_mem _ hx))
    have h2 : d < 10 := h d (List.mem_cons_self _ _)
    have h3 : (d + 1) * 10 ^ t.length ≤ 10 * 10 ^ t.length :=
      Nat.mul_le_mul_right _ (by omega)
    rw [Nat.add_mul, Nat.one_mul] at h3
    have h4 : 10 ^ (d :: t).length = 10 * 10 ^ t.length := by
      rw [List.length_cons, pow_succ]
      ring
    rw [h4]
    omega

theorem valD_digitsMSD (n : Nat) : valD (digitsMSD n) = n := by
  induction n using Nat.strong_induction_on with
  | _ n ih =>
    rw [digitsMSD_eq]
    by_cases h : n < 10
    · rw [if_pos h]
      show 10 * 0 + n = n
      omega
    · rw [if_neg h]
      show (digitsMSD (n / 10) ++ [n % 10]).foldl (fun a d => 10 * a + d) 0 = n
      rw [List.foldl_append]
      show 10 * valD (digitsMSD (n / 10)) + n % 10 = n
      rw [ih (n / 10) (Nat.div_lt_self (by omega) (by omega))]
      omega

/-- Left-pad a digit list with zeros to width `w`: the digit-level model
of Python's `str.zfill` (which pads only if the string is shorter than
the requested width). -/
def padZeros (w : Nat) (ds : List Nat) : List Nat :=
  List.replicate (w - ds.length) 0 ++ ds

theorem padZeros_length (w : Nat) (ds : List Nat) (h : ds.length ≤ w) :
    (padZeros w ds).length = w := by
  simp only [padZeros, List.length_append, List.length_replicate]
  omega

theorem valD_padZeros (w : Nat) (ds : List Nat) :
    valD (padZeros w ds) = valD ds := by
  have hz : ∀ k : Nat, (List.replicate k 0).foldl (fun a d => 10 * a + d) 0 = 0 := by
    intro k
    induction k with
    | zero => rfl
    | succ k ihk =>
      rw [List.replicate_succ, List.foldl_cons]
      simpa using ihk
  show (List.replicate (w - ds.length) 0 ++ ds).foldl (fun a d => 10 * a + d) 0 = _
  rw [List.foldl_append, hz]
  rfl

theorem padZeros_lt10 (w : Nat) (ds : List Nat) (h : ∀ d ∈ ds, d < 10) :
    ∀ d ∈ padZeros w ds, d < 10 := by
  intro d hd
  rcases List.mem_append.mp hd with h1 | h2
  · have := List.eq_of_mem_replicate h1
    omega
  · exact h d h2

theorem digitChar_strict_mono : ∀ a b : Fin 10, a.val < b.val →
    Nat.digitChar a.val < Nat.digitChar b.val := by decide

/-- Fixed-width decimal strings compare lexicographically like their
numeric values, for any common suffix. -/
theorem list_lt_of_valD_lt : ∀ (l1 l2 : List Nat) (tail : List Char),
    l1.length = l2.length → (∀ d ∈ l1, d < 10) → (∀ d ∈ l2, d < 10) →
    valD l1 < valD l2 →
    List.Lex (fun a b : Char => a < b) (l1.map Nat.digitChar ++ tail)
      (l2.map Nat.digitChar ++ tail) := by
  intro l1
  induction l1 with
  | nil =>
    intro l2 tail hlen _ _ hval
    have h2 : l2 = [] := List.length_eq_zero.mp hlen.symm
    subst h2
    simp [valD] at hval
  | cons d1 t1 ih =>
    intro l2 tail hlen h1 h2 hval
    cases l2 with
    | nil => simp at hlen
    | cons d2 t2 =>
      have hlen2 : t1.length = t2.length := by simpa using hlen
      have hd1 : d1 < 10 := h1 d1 (List.mem_cons_self _ _)
      have hd2 : d2 < 10 := h2 d2 (List.mem_cons_self _ _)
      rcases Nat.lt_trichotomy d1 d2 with hlt | heq | hgt
      · exact List.Lex.rel (digitChar_strict_mono ⟨d1, hd1⟩ ⟨d2, hd2⟩ hlt)
      · subst heq
        rw [valD_cons, valD_cons, hlen2] at hval
        have htval : valD t1 < valD t2 := Nat.lt_of_add_lt_add_left hval
        exact List.Lex.cons
          (ih t2 tail hlen2 (fun x hx => h1 x (List.mem_cons_of_mem _ hx))
            (fun x hx => h2 x (List.mem_cons_of_mem _ hx)) htval)
      · exfalso
        have hv2 : valD t2 < 10 ^ t2.length :=
          valD_lt t2 (fun x hx => h2 x (List.mem_cons_of_mem _ hx))
        rw [valD_cons, valD_cons, hlen2] at hval
        have h5 : (d2 + 1) * 10 ^ t2.length ≤ d1 * 10 ^ t2.length :=
          Nat.mul_le_mul_right _ hgt
        rw [Nat.add_mul, Nat.one_mul] at h5
        linarith

/-- `str(n)` for a natural number, as used for artifact names in
`pdf-to-beamer.py`. -/
def natStr (n : Nat) : String := ⟨(digitsMSD n).map Nat.digitChar⟩

/-- `convert_pdf_to_numbered_images` (`pdf-to-image.py`): the zero-pad
width is `len(str(page_count))`. -/
def zfillWidth (pageCount : Nat) : Nat := (digitsMSD pageCount).length

/-- The filename of the image of 0-based page `i` in
`convert_pdf_to_numbered_images`: `str(i + 1).zfill(zfill_width) + ".png"`.
Padding the digit list with the digit `0` and then mapping
`Nat.digitChar` coincides with padding the decimal string with the
character `0`, because `Nat.digitChar 0` is that character. -/
def imageName (pageCount i : Nat) : String :=
  ⟨(padZeros (zfillWidth pageCount) (digitsMSD (i + 1))).map Nat.digitChar ++
    ".png".data⟩

/-- C10: in `convert_pdf_to_numbered_images`, every page-image filename
is the 1-based page number zero-padded to width `len(str(page_count))`
followed by `".png"`, so for page indices `i < j < page_count` the
filename of page `i` is strictly smaller than the filename of page `j`
in lexicographic string order — filename order equals page order. -/
theorem image_filenames_lex_ascending (pageCount i j : Nat)
    (hij : i < j) (hj : j < pageCount) :
    imageName pageCount i < imageName pageCount j := by
  have hw1 : (digitsMSD (i + 1)).length ≤ zfillWidth pageCount :=
    digitsMSD_length_mono pageCount (i + 1) (by omega)
  have hw2 : (digitsMSD (j + 1)).length ≤ zfillWidth pageCount :=
    digitsMSD_length_mono pageCount (j + 1) (by omega)
  rw [String.lt_iff_toList_lt]
  show List.Lex (fun a b : Char => a < b)
    ((padZeros (zfillWidth pageCount) (digitsMSD (i + 1))).map Nat.digitChar ++
      ".png".data)
    ((padZeros (zfillWidth pageCount) (digitsMSD (j + 1))).map Nat.digitChar ++
      ".png".data)
  apply list_lt_of_valD_lt
  · rw [padZeros_length _ _ hw1, padZeros_length _ _ hw2]
  · exact padZeros_lt10 _ _ (digitsMSD_lt10 _)
  · exact padZeros_lt10 _ _ (digitsMSD_lt10 _)
  · rw [valD_padZeros, valD_padZeros, valD_digitsMSD, valD_digitsMSD]
    omega

/-- Witness for `image_filenames_lex_ascending`: in a 12-page document,
page 2 ("03.png") sorts before page 10 ("11.png"). -/
theorem image_filenames_lex_ascending_witness :
    imageName 12 2 < imageName 12 10 :=
  image_filenames_lex_ascending 12 2 10 (by omega) (by omega)

/-- Fuel-driven model of Python's `re.sub(pat, "", s)` for a literal
pattern (the patterns used in `create_latex_document` contain no regex
metacharacters): scan left to right, delete each non-overlapping
occurrence of `pat`, and continue scanning after the deleted span
without rescanning the produced text.  Fuel `s.length` is always
sufficient. -/
def subDelAux (pat : List Char) : Nat → List Char → List Char
  | _, [] => []
  | 0, c :: rest => c :: rest
  | fuel + 1, c :: rest =>
    if pat.isPrefixOf (c :: rest) ∧ pat ≠ [] then
      subDelAux pat fuel (rest.drop (pat.length - 1))
    else c :: subDelAux pat fuel rest

/-- Deletion of all (non-overlapping, leftmost-first) occurrences of
`pat` from `s`. -/
def subDel (pat s : List Char) : List Char := subDelAux pat s.length s

theorem subDelAux_nil (pat : List Char) (g : Nat) : subDelAux pat g [] = [] := by
  cases g <;> rfl

theorem subDelAux_congr (pat : List Char) : ∀ f g s, s.length ≤ f →
    s.length ≤ g → subDelAux pat f s = subDelAux pat g s := by
  intro f
  induction f with
  | zero =>
    intro g s hf _
    have hs : s = [] := by
      cases s
      · rfl
      · simp at hf
    subst hs
    rw [subDelAux_nil, subDelAux_nil]
  | succ f ih =>
    intro g s hf hg
    cases s with
    | nil => rw [subDelAux_nil, subDelAux_nil]
    | cons c rest =>
      have hrest : rest.length ≤ f := by
        simp only [List.length_cons] at hf
        omega
      cases g with
      | zero => simp at hg
      | succ g =>
        have hrest2 : rest.length ≤ g := by
          simp only [List.length_cons] at hg
          omega
        show (if pat.isPrefixOf (c :: rest) ∧ pat ≠ [] then
            subDelAux pat f (rest.drop (pat.length - 1))
          else c :: subDelAux pat f rest) =
          (if pat.isPrefixOf (c :: rest) ∧ pat ≠ [] then
            subDelAux pat g (rest.drop (pat.length - 1))
          else c :: subDelAux pat g rest)
        by_cases h : (pat.isPrefixOf (c :: rest) : Prop) ∧ pat ≠ []
        · rw [if_pos h, if_pos h]
          have hd : (rest.drop (pat.length - 1)).length ≤ rest.length := by
            rw [List.length_drop]
            omega
          exact ih g _ (by omega) (by omega)
        · rw [if_neg h, if_neg h, ih g rest hrest hrest2]

theorem subDel_nil (pat : List Char) : subDel pat [] = [] := rfl

/-- Unfolding equation for `subDel` on a nonempty string. -/
theorem subDel_cons (pat : List Char) (c : Char) (rest : List Char) :
    subDel pat (c :: rest) =
      if pat.isPrefixOf (c :: rest) ∧ pat ≠ [] then
        subDel pat (rest.drop (pat.length - 1))
      else c :: subDel pat rest := by
  show (if pat.isPrefixOf (c :: rest) ∧ pat ≠ [] then
      subDelAux pat rest.length (rest.drop (pat.length - 1))
    else c :: subDelAux pat rest.length rest) = _
  by_cases h : (pat.isPrefixOf (c :: rest) : Prop) ∧ pat ≠ []
  · rw [if_pos h, if_pos h]
    exact subDelAux_congr pat rest.length _ _ (by rw [List.length_drop]; omega)
      (le_refl _)
  · rw [if_neg h, if_neg h]
    rfl

/-- Whether `pat` occurs as a contiguous substring of `s`. -/
def containsPat (pat : List Char) : List Char → Bool
  | [] => pat.isEmpty
  | c :: rest => pat.isPrefixOf (c :: rest) || containsPat pat rest

theorem subDel_of_not_contains (pat s : List Char)
    (h : containsPat pat s = false) : subDel pat s = s := by
  induction s with
  | nil => rfl
  | cons c rest ih =>
    have h2 : (pat.isPrefixOf (c :: rest) || containsPat pat rest) = false := h
    rw [Bool.or_eq_false_iff] at h2
    rw [subDel_cons, if_neg (fun hand => by rw [hand.1] at h2; exact absurd h2.1 (by simp)),
      ih h2.2]

theorem contains_mono (p1 p2 s : List Char) (hp : p1.isPrefixOf p2 = true)
    (h : containsPat p2 s = true) : containsPat p1 s = true := by
  induction s with
  | nil =>
    have h2 : p2.isEmpty = true := h
    have hp2 : p2 = [] := by
      cases p2
      · rfl
      · simp at h2
    subst hp2
    have hp1 : p1 = [] := by
      rw [List.isPrefixOf_iff_prefix] at hp
      exact List.prefix_nil.mp hp
    subst hp1
    rfl
  | cons c rest ih =>
    have h2 : (p2.isPrefixOf (c :: rest) || containsPat p2 rest) = true := h
    rw [Bool.or_eq_true] at h2
    show (p1.isPrefixOf (c :: rest) || containsPat p1 rest) = true
    rw [Bool.or_eq_true]
    rcases h2 with h2 | h2
    · left
      rw [List.isPrefixOf_iff_prefix] at hp h2 ⊢
      exact hp.trans h2
    · right
      exact ih h2

/-- Length of the maximal run of copies of `g` at the front of a string. -/
def leadRun (g : Char) : List Char → Nat
  | [] => 0
  | c :: rest => if c = g then leadRun g rest + 1 else 0

theorem leadRun_ge3 (g : Char) (l : List Char)
    (h : [g, g, g].isPrefixOf l = true) : 3 ≤ leadRun g l := by
  cases l with
  | nil => simp [List.isPrefixOf] at h
  | cons c1 l1 =>
    cases l1 with
    | nil => simp [List.isPrefixOf] at h
    | cons c2 l2 =>
      cases l2 with
      | nil => simp [List.isPrefixOf] at h
      | cons c3 rest =>
        simp only [List.isPrefixOf, Bool.and_eq_true, beq_iff_eq] at h
        obtain ⟨h1, h2, h3, _⟩ := h
        subst h1
        subst h2
        subst h3
        have e : ∀ l, leadRun g (g :: l) = leadRun g l + 1 := fun l => by
          simp [leadRun]
        rw [e, e, e]
        omega

theorem leadRun_le1_of_not_prefix (g : Char) (rest : List Char)
    (h : [g, g].isPrefixOf rest = false) : leadRun g rest ≤ 1 := by
  cases rest with
  | nil => simp [leadRun]
  | cons c1 r1 =>
    cases r1 with
    | nil =>
      simp only [leadRun]
      by_cases hc : c1 = g <;> simp [hc]
    | cons c2 r2 =>
      simp only [List.isPrefixOf, Bool.and_eq_false_iff, beq_eq_false_iff_ne] at h
      simp only [leadRun]
      by_cases hc1 : c1 = g
      · rw [if_pos hc1]
        by_cases hc2 : c2 = g
        · exfalso
          rcases h with h | h
          · exact h hc1.symm
          · rcases h with h | h
            · exact h hc2.symm
            · simp at h
        · rw [if_neg hc2]
      · rw [if_neg hc1]
        omega

theorem prefix_false_tail (g : Char) (rest : List Char)
    (h : [g, g, g].isPrefixOf (g :: rest) = false) :
    [g, g].isPrefixOf rest = false := by
  simp only [List.isPrefixOf, Bool.and_eq_false_iff, beq_eq_false_iff_ne] at h
  rcases h with h | h
  · exact absurd rfl h
  · exact h

/-- After one deletion pass for the pattern `ggg`, at most two copies of
`g` remain at the front, and no more than were there before. -/
theorem leadRun_subDel_le (g : Char) : ∀ n s, s.length ≤ n →
    leadRun g (subDel [g, g, g] s) ≤ min (leadRun g s) 2 := by
  intro n
  induction n with
  | zero =>
    intro s hlen
    have hs : s = [] := by
      cases s
      · rfl
      · simp at hlen
    subst hs
    rw [subDel_nil]
    exact Nat.zero_le _
  | succ n ih =>
    intro s hlen
    cases s with
    | nil =>
      rw [subDel_nil]
      exact Nat.zero_le _
    | cons c rest =>
      have hrest : rest.length ≤ n := by
        simp only [List.length_cons] at hlen
        omega
      rw [subDel_cons]
      by_cases hp : [g, g, g].isPrefixOf (c :: rest) = true
      · rw [if_pos ⟨hp, by simp⟩]
        have hd : (rest.drop ([g, g, g].length - 1)).length ≤ n := by
          rw [List.length_drop]
          omega
        have h1 := ih _ hd
        have h2 := leadRun_ge3 g (c :: rest) hp
        omega
      · have hp2 : [g, g, g].isPrefixOf (c :: rest) = false :=
          Bool.eq_false_iff.mpr hp
        rw [if_neg (fun hand => hp hand.1)]
        by_cases hc : c = g
        · have e : ∀ l, leadRun g (c :: l) = leadRun g l + 1 := fun l => by
            simp [leadRun, hc]
          rw [e, e]
          rw [hc] at hp2
          have h1 := ih rest hrest
          have h2 := leadRun_le1_of_not_prefix g rest (prefix_false_tail g rest hp2)
          omega
        · have e : ∀ l, leadRun g (c :: l) = 0 := fun l => by
            simp [leadRun, hc]
          rw [e]
          omega

/-- Main lemma for the fence-stripping claim: after a deletion pass for
the pattern `ggg`, no occurrence of `ggg` remains. -/
theorem subDel_no_occurrence_aux (g : Char) : ∀ n s, s.length ≤ n →
    containsPat [g, g, g] (subDel [g, g, g] s) = false := by
  intro n
  induction n with
  | zero =>
    intro s hlen
    have hs : s = [] := by
      cases s
      · rfl
      · simp at hlen
    subst hs
    rfl
  | succ n ih =>
    intro s hlen
    cases s with
    | nil => rfl
    | cons c rest =>
      have hrest : rest.length ≤ n := by
        simp only [List.length_cons] at hlen
        omega
      by_cases hp : [g, g, g].isPrefixOf (c :: rest) = true
      · rw [subDel_cons, if_pos ⟨hp, by simp⟩]
        have hd : (rest.drop ([g, g, g].length - 1)).length ≤ n := by
          rw [List.length_drop]
          omega
        exact ih _ hd
      · have hcu : subDel [g, g, g] (c :: rest) =
            c :: subDel [g, g, g] rest := by
          rw [subDel_cons, if_neg (fun hand => hp hand.1)]
        have hbound := leadRun_subDel_le g (c :: rest).length (c :: rest)
          (le_refl _)
        rw [hcu] at hbound ⊢
        show ([g, g, g].isPrefixOf (c :: subDel [g, g, g] rest) ||
          containsPat [g, g, g] (subDel [g, g, g] rest)) = false
        rw [ih rest hrest]
        cases hfirst : [g, g, g].isPrefixOf (c :: subDel [g, g, g] rest) with
        | false => rfl
        | true =>
          exfalso
          have h3 := leadRun_ge3 g _ hfirst
          omega

theorem subDel_no_occurrence (g : Char) (s : List Char) :
    containsPat [g, g, g] (subDel [g, g, g] s) = false :=
  subDel_no_occurrence_aux g s.length s (le_refl _)

/-- String-level `re.sub(pat, "", s)` for a literal pattern, as used in
`create_latex_document`. -/
def pySubDelete (pat s : String) : String := ⟨subDel pat.data s.data⟩

/-- The markup-cleaning step of `create_latex_document`
(`pdf-to-beamer.py`, lines 129–130): first delete every occurrence of
three backticks followed by `latex`, then every remaining occurrence of
three backticks. -/
def cleanFrame (frame : String) : String :=
  pySubDelete "```" (pySubDelete "```latex" frame)

/-- The bytes `create_latex_document` writes to the per-page artifact
file (`pdf-to-beamer.py`, line 131): the cleaned markup plus a trailing
newline. -/
def createLatexFileContent (frame : String) : String := cleanFrame frame ++ "\n"

theorem string_mk_data (s : String) : (⟨s.data⟩ : String) = s := by
  cases s
  rfl

/-- C9: the artifact content persisted by `create_latex_document` is the
generated markup with the transport-layer fenced-code delimiters
removed — every occurrence of the backtick-fence-plus-`latex` opener and
every remaining triple-backtick fence is deleted (so no fence survives
in the output), and markup containing no fence is persisted unchanged,
followed by a trailing newline. -/
theorem createLatex_strips_fences (frame : String) :
    createLatexFileContent frame =
      pySubDelete "```" (pySubDelete "```latex" frame) ++ "\n" ∧
    containsPat "```".data (cleanFrame frame).data = false ∧
    (containsPat "```".data frame.data = false →
      createLatexFileContent frame = frame ++ "\n") := by
  refine ⟨rfl, ?_, ?_⟩
  · show containsPat "```".data
      (subDel "```".data (pySubDelete "```latex" frame).data) = false
    have hg : "```".data = [Char.ofNat 96, Char.ofNat 96, Char.ofNat 96] := rfl
    rw [hg]
    exact subDel_no_occurrence (Char.ofNat 96) _
  · intro h
    have hpre : "```".data.isPrefixOf "```latex".data = true := rfl
    have h2 : containsPat "```latex".data frame.data = false := by
      cases hval : containsPat "```latex".data frame.data with
      | false => rfl
      | true =>
        exfalso
        have := contains_mono "```".data "```latex".data frame.data hpre hval
        rw [h] at this
        exact absurd this (by simp)
    have e1 : pySubDelete "```latex" frame = frame := by
      show (⟨subDel "```latex".data frame.data⟩ : String) = frame
      rw [subDel_of_not_contains _ _ h2]
    have e2 : pySubDelete "```" frame = frame := by
      show (⟨subDel "```".data frame.data⟩ : String) = frame
      rw [subDel_of_not_contains _ _ h]
    show cleanFrame frame ++ "\n" = frame ++ "\n"
    rw [cleanFrame, e1, e2]

/-- Witness for `createLatex_strips_fences`: fence-free markup is
persisted unchanged (plus the trailing newline). -/
theorem createLatex_strips_fences_witness :
    createLatexFileContent "hello" = "hello" ++ "\n" :=
  (createLatex_strips_fences "hello").2.2 (by decide)

deriving instance DecidableEq for Except

/-- One entry of a directory listing: a file name and its content.  The
filesystem order of a listing is the order of this list. -/
structure DirEntry where
  name : String
  content : String
  deriving DecidableEq

/-- `int(...)` on the digit group captured by the page-number pattern. -/
def strToNat (ds : List Char) : Nat :=
  ds.foldl (fun a c => 10 * a + (c.toNat - 48)) 0

/-- Attempt to match the regex `_page_(\d+)\.tex` at the head of `cs`:
the literal `_page_`, then a nonempty maximal digit run, then `.tex`.
(Backtracking on the greedy digit run can never help: a shorter run
ends just before another digit, which is not a dot.) -/
def matchPageAt (cs : List Char) : Option Nat :=
  if "_page_".data.isPrefixOf cs then
    if (cs.drop 6).takeWhile (fun c => c.isDigit) ≠ [] ∧
        ".tex".data.isPrefixOf
          ((cs.drop 6).drop ((cs.drop 6).takeWhile (fun c => c.isDigit)).length) then
      some (strToNat ((cs.drop 6).takeWhile (fun c => c.isDigit)))
    else none
  else none

/-- `re.search(r"_page_(\d+)\.tex", s)` followed by `int(m.group(1))`:
start positions are tried left to right. -/
def searchPageNumAux : List Char → Option Nat
  | [] => none
  | c :: rest =>
    match matchPageAt (c :: rest) with
    | some n => some n
    | none => searchPageNumAux rest

def searchPageNum (s : String) : Option Nat := searchPageNumAux s.data

/-- The preamble string of `concat_beamer_files`, including the
indentation embedded in the Python triple-quoted literal. -/
def texPreamble : String :=
  "\\documentclass{beamer}\n    \\usepackage{textpos}\n    \\usepackage{graphicx}\n    \\begin{document}\n    "

/-- The postamble string of `concat_beamer_files`. -/
def texPostamble : String := "\\end{document}"

/-- `os.path.join(output_dir, f)` for the plain relative-path case. -/
def pathJoin (dir name : String) : String := dir ++ "/" ++ name

/-- The `f.endswith(".tex")` filter of `concat_beamer_files`. -/
def texEntries (listing : List DirEntry) : List DirEntry :=
  listing.filter (fun e => ".tex".data.isSuffixOf e.name.data)

/-- The sort key `int(re.search(r"_page_(\d+)\.tex", path).group(1))`
of `concat_beamer_files`, with a default used only when every entry's
key extraction succeeded. -/
def entryKey (dir : String) (e : DirEntry) : Nat :=
  (searchPageNum (pathJoin dir e.name)).getD 0

/-- Whether the page-number pattern matches the entry's path. -/
def entryKeyMatches (dir : String) (e : DirEntry) : Bool :=
  (searchPageNum (pathJoin dir e.name)).isSome

/-- The body written by `concat_beamer_files`: each file's content
followed by a newline, in the given order. -/
def concatBody (l : List DirEntry) : String :=
  l.foldl (fun acc e => acc ++ e.content ++ "\n") ""

/-- Embedding of `concat_beamer_files` over a directory listing.  The
`.tex` files are sorted by the page number embedded in their path;
Python's `sorted` is a stable comparison sort, so it is extensionally
insertion sort by the non-strict key order.  If the pattern fails to
match some `.tex` file's path, `None.group(1)` raises an
`AttributeError`; Python computes all sort keys before comparing, so
the all-keys-match test is performed up front here, with the same
observable outcome. -/
def concatBeamerFiles (dir : String) (listing : List DirEntry) :
    Except PyErr String :=
  if (texEntries listing).all (entryKeyMatches dir) then
    .ok (texPreamble ++ "\n" ++
      concatBody (List.insertionSort
        (fun a b => entryKey dir a ≤ entryKey dir b) (texEntries listing)) ++
      texPostamble ++ "\n")
  else .error .attributeError

/-- C1 (amended): when every `.tex` artifact's path matches the page
pattern and the embedded page numbers are pairwise distinct, the output
of `concat_beamer_files` is invariant under permuting the directory
listing, and the artifact contents appear in ascending order of the
embedded page number.  (With duplicate embedded page numbers the stable
sort preserves listing order, so the output depends on discovery order:
`concat_duplicate_pages_order_dependent`.) -/
theorem concat_sorted_perm_invariant (dir : String) (l1 l2 : List DirEntry)
    (hperm : l1.Perm l2)
    (hall : ∀ e ∈ texEntries l1, entryKeyMatches dir e = true)
    (hnd : ((texEntries l1).map (entryKey dir)).Nodup) :
    concatBeamerFiles dir l1 = concatBeamerFiles dir l2 ∧
    ∃ s : List DirEntry, (texEntries l1).Perm s ∧
      s.Sorted (fun a b => entryKey dir a < entryKey dir b) ∧
      concatBeamerFiles dir l1 =
        .ok (texPreamble ++ "\n" ++ concatBody s ++ texPostamble ++ "\n") := by
  letI : IsTotal DirEntry (fun a b => entryKey dir a ≤ entryKey dir b) :=
    ⟨fun a b => Nat.le_total _ _⟩
  letI : IsTrans DirEntry (fun a b => entryKey dir a ≤ entryKey dir b) :=
    ⟨fun a b c hab hbc => Nat.le_trans hab hbc⟩
  letI : IsAntisymm DirEntry (fun a b => entryKey dir a < entryKey dir b) :=
    ⟨fun a b h1 h2 => absurd h1 (Nat.lt_asymm h2)⟩
  have htexperm : (texEntries l1).Perm (texEntries l2) := hperm.filter _
  have hall2 : ∀ e ∈ texEntries l2, entryKeyMatches dir e = true := fun e he =>
    hall e (htexperm.mem_iff.mpr he)
  have hall1b : (texEntries l1).all (entryKeyMatches dir) = true :=
    List.all_eq_true.mpr hall
  have hall2b : (texEntries l2).all (entryKeyMatches dir) = true :=
    List.all_eq_true.mpr hall2
  have hs1 := List.sorted_insertionSort
    (fun a b => entryKey dir a ≤ entryKey dir b) (texEntries l1)
  have hs2 := List.sorted_insertionSort
    (fun a b => entryKey dir a ≤ entryKey dir b) (texEntries l2)
  have hp1 := List.perm_insertionSort
    (fun a b => entryKey dir a ≤ entryKey dir b) (texEntries l1)
  have hp2 := List.perm_insertionSort
    (fun a b => entryKey dir a ≤ entryKey dir b) (texEntries l2)
  have hnd1 : ((List.insertionSort (fun a b => entryKey dir a ≤ entryKey dir b)
      (texEntries l1)).map (entryKey dir)).Nodup :=
    hnd.perm ((hp1.map (entryKey dir)).symm)
  have hnd2 : ((List.insertionSort (fun a b => entryKey dir a ≤ entryKey dir b)
      (texEntries l2)).map (entryKey dir)).Nodup :=
    (hnd.perm (htexperm.map (entryKey dir))).perm ((hp2.map (entryKey dir)).symm)
  have hstrict1 : (List.insertionSort (fun a b => entryKey dir a ≤ entryKey dir b)
      (texEntries l1)).Sorted (fun a b => entryKey dir a < entryKey dir b) :=
    List.Pairwise.imp₂ (fun a b hle hne => lt_of_le_of_ne hle hne) hs1
      (List.pairwise_map.mp hnd1)
  have hstrict2 : (List.insertionSort (fun a b => entryKey dir a ≤ entryKey dir b)
      (texEntries l2)).Sorted (fun a b => entryKey dir a < entryKey dir b) :=
    List.Pairwise.imp₂ (fun a b hle hne => lt_of_le_of_ne hle hne) hs2
      (List.pairwise_map.mp hnd2)
  have heq : List.insertionSort (fun a b => entryKey dir a ≤ entryKey dir b)
      (texEntries l1) =
      List.insertionSort (fun a b => entryKey dir a ≤ entryKey dir b)
        (texEntries l2) :=
    List.eq_of_perm_of_sorted ((hp1.trans htexperm).trans hp2.symm) hstrict1
      hstrict2
  constructor
  · unfold concatBeamerFiles
    rw [if_pos hall1b, if_pos hall2b, heq]
  · refine ⟨List.insertionSort (fun a b => entryKey dir a ≤ entryKey dir b)
      (texEntries l1), hp1.symm, hstrict1, ?_⟩
    unfold concatBeamerFiles
    rw [if_pos hall1b]

/-- Witness for `concat_sorted_perm_invariant`: two artifact files for
pages 1 and 2 discovered in either order assemble identically. -/
theorem concat_sorted_perm_invariant_witness :
    concatBeamerFiles "beamers"
        [⟨"a_page_2.tex", "B2"⟩, ⟨"a_page_1.tex", "B1"⟩] =
      concatBeamerFiles "beamers"
        [⟨"a_page_1.tex", "B1"⟩, ⟨"a_page_2.tex", "B2"⟩] ∧
    ∃ s : List DirEntry,
      (texEntries [⟨"a_page_2.tex", "B2"⟩, ⟨"a_page_1.tex", "B1"⟩]).Perm s ∧
      s.Sorted (fun a b => entryKey "beamers" a < entryKey "beamers" b) ∧
      concatBeamerFiles "beamers"
          [⟨"a_page_2.tex", "B2"⟩, ⟨"a_page_1.tex", "B1"⟩] =
        .ok (texPreamble ++ "\n" ++ concatBody s ++ texPostamble ++ "\n") :=
  concat_sorted_perm_invariant "beamers"
    [⟨"a_page_2.tex", "B2"⟩, ⟨"a_page_1.tex", "B1"⟩]
    [⟨"a_page_1.tex", "B1"⟩, ⟨"a_page_2.tex", "B2"⟩]
    (by decide) (by decide) (by decide)

/-- Counterexample to C1 as stated: two distinct artifact files whose
names both embed page number 1 are concatenated in listing order, so
permuting the discovery order changes the assembled output. -/
theorem concat_duplicate_pages_order_dependent :
    ([⟨"a_page_1.tex", "A"⟩, ⟨"b_page_1.tex", "B"⟩] : List DirEntry).Perm
      [⟨"b_page_1.tex", "B"⟩, ⟨"a_page_1.tex", "A"⟩] ∧
    concatBeamerFiles "beamers" [⟨"a_page_1.tex", "A"⟩, ⟨"b_page_1.tex", "B"⟩] ≠
      concatBeamerFiles "beamers"
        [⟨"b_page_1.tex", "B"⟩, ⟨"a_page_1.tex", "A"⟩] := by
  constructor
  · decide
  · decide

/-- C6 (amended): if some file with the `.tex` extension has a path the
page-number pattern cannot match, `concat_beamer_files` does fail
rather than silently skipping the file — but with Python's untyped
`AttributeError` (from `None.group(1)`), not with a typed
`AssemblyError`. -/
theorem concat_unmatched_raises (dir : String) (listing : List DirEntry)
    (h : ∃ e ∈ texEntries listing, entryKeyMatches dir e = false) :
    concatBeamerFiles dir listing = .error .attributeError := by
  obtain ⟨e, he, hfalse⟩ := h
  have hall : (texEntries listing).all (entryKeyMatches dir) = false := by
    cases hv : (texEntries listing).all (entryKeyMatches dir) with
    | false => rfl
    | true =>
      have := List.all_eq_true.mp hv e he
      rw [hfalse] at this
      exact Bool.noConfusion this
  unfold concatBeamerFiles
  rw [if_neg (fun hc : (texEntries listing).all (entryKeyMatches dir) = true =>
    by rw [hall] at hc; exact Bool.noConfusion hc)]

/-- Witness for `concat_unmatched_raises`: a `.tex` file whose name
embeds no page number. -/
theorem concat_unmatched_raises_witness :
    (∃ e ∈ texEntries [⟨"foo.tex", "x"⟩],
      entryKeyMatches "beamers" e = false) ∧
    concatBeamerFiles "beamers" [⟨"foo.tex", "x"⟩] = .error .attributeError :=
  ⟨by decide, concat_unmatched_raises "beamers" [⟨"foo.tex", "x"⟩] (by decide)⟩

/-- Counterexample to C6 as stated: on an ambiguous `.tex` artifact the
failure is an `AttributeError`, not an `AssemblyError` (no typed
`AssemblyError` exists in the code). -/
theorem concat_unmatched_error_untyped :
    concatBeamerFiles "beamers" [⟨"foo.tex", "x"⟩] = .error .attributeError ∧
    concatBeamerFiles "beamers" [⟨"foo.tex", "x"⟩] ≠ .error .assemblyError := by
  constructor
  · decide
  · decide

/-- The artifact file name `f'{file_name}_page_{i}.tex'` written by
`main`. -/
def pageFileName (fname : String) (i : Nat) : String :=
  fname ++ "_page_" ++ natStr i ++ ".tex"

/-- Writing a file into a directory listing: replace the entry with the
same name if present, else append. -/
def writeFile (l : List DirEntry) (name content : String) : List DirEntry :=
  if l.any (fun e => e.name == name) then
    l.map (fun e => if e.name = name then ⟨name, content⟩ else e)
  else l ++ [⟨name, content⟩]

/-- Embedding of the page loop of `main` (`pdf-to-beamer.py`, lines
170–185): page indices `i ≤ 27` are skipped by the hard-coded
`if i <= 27: continue`; otherwise the page is rasterized, the content
generator (modelled as the oracle `gen`) is called, and on success the
cleaned markup is written to the per-page artifact file.  An exception
from the generator propagates and aborts the whole loop. -/
def processPages (fname : String) (gen : Nat → Except PyErr String) :
    List Nat → List DirEntry → Except PyErr (List DirEntry)
  | [], dirEnts => .ok dirEnts
  | i :: rest, dirEnts =>
    if i ≤ 27 then processPages fname gen rest dirEnts
    else
      match gen i with
      | .error e => .error e
      | .ok frame =>
        processPages fname gen rest
          (writeFile dirEnts (pageFileName fname i)
            (createLatexFileContent frame))

/-- Embedding of `main` (`pdf-to-beamer.py`, lines 159–190): run the
page loop over all page indices of the document, then concatenate the
artifact directory into the final document.  `initial` is the content
of the artifact directory at the start of the run (empty for a fresh
run; for a resumed run, the artifacts already on disk). -/
def runMain (fname : String) (gen : Nat → Except PyErr String) (n : Nat)
    (initial : List DirEntry) : Except PyErr String :=
  match processPages fname gen (List.range n) initial with
  | .error e => .error e
  | .ok dirEnts => concatBeamerFiles (fname ++ "_beamers") dirEnts

/-- C2 is violated (code bug): `main` has no per-page error handling, so
a generation failure on one page aborts the whole run with the
propagated exception, and no final document is assembled at all.  In
this 30-page run the processed range is pages 28 and 29; generation
fails only on page 28 and would succeed on page 29, yet the run returns
the raw `GenerationError` instead of a final document containing the
succeeding pages. -/
theorem main_aborts_on_generation_failure :
    runMain "doc"
        (fun i => if i = 28 then .error .generationError else .ok "F") 30 [] =
      .error .generationError ∧
    ∀ s : String,
      runMain "doc"
          (fun i => if i = 28 then .error .generationError else .ok "F") 30 [] ≠
        .ok s := by
  constructor
  · decide
  · intro s h
    rw [show runMain "doc"
        (fun i => if i = 28 then .error .generationError else .ok "F") 30 [] =
      .error .generationError by decide] at h
    exact Except.noConfusion h

/-- C3 is violated (code bug): `main` performs no auto-detection of a
resume point; its loop unconditionally skips the hard-coded page
indices `0..27`.  With artifacts present for exactly pages `0..k-1`
with `k = 1` and a 2-page document, the claimed auto-detected start
index is `1`, so page 1 should be processed and the final document
should contain pages 0 and 1; instead the loop processes nothing (both
indices are ≤ 27) and the final document contains only the
pre-existing artifact of page 0. -/
theorem main_ignores_resume_artifacts :
    processPages "doc" (fun _ => .ok "P1") (List.range 2)
        [⟨"doc_page_0.tex", "P0\n"⟩] =
      .ok [⟨"doc_page_0.tex", "P0\n"⟩] ∧
    runMain "doc" (fun _ => .ok "P1") 2 [⟨"doc_page_0.tex", "P0\n"⟩] =
      .ok (texPreamble ++ "\n" ++ "P0\n" ++ "\n" ++ texPostamble ++ "\n") := by
  constructor
  · decide
  · decide

/-- The outcome of `doc.extract_image(xref)` plus the file write for one
embedded image of a page: either the decoded asset was written under
the given path, or the library raised an exception. -/
inductive ImageAsset where
  | asset (path : String)
  | unreadable
  deriving DecidableEq

/-- Embedding of the image loop of `extract_pdf_content`
(`pdf-to-beamer.py`, lines 25–36): each image is decoded and written in
order and its path appended to `img_paths`; there is no exception
handling, so the first unreadable image aborts the whole extraction. -/
def extractPageImages : List ImageAsset → Except PyErr (List String)
  | [] => .ok []
  | .asset p :: rest =>
    match extractPageImages rest with
    | .error e => .error e
    | .ok ps => .ok (p :: ps)
  | .unreadable :: _ => .error .libraryError

/-- C8 is violated (code bug): the image loop of `extract_pdf_content`
has no exception handling, so a single unreadable embedded image aborts
the whole page extraction with the library's error instead of being
skipped: with assets `[a, unreadable, b]` the code yields an error, not
the claimed partial success retaining `a` and `b`. -/
theorem extract_images_aborts_on_bad_asset :
    extractPageImages
        [.asset "page_1_image_0.png", .unreadable,
         .asset "page_1_image_2.png"] = .error .libraryError ∧
    extractPageImages
        [.asset "page_1_image_0.png", .unreadable,
         .asset "page_1_image_2.png"] ≠
      .ok ["page_1_image_0.png", "page_1_image_2.png"] := by
  constructor
  · rfl
  · decide

/-- Filesystem operations, for describing what `create_latex_document`
does to the artifact store. -/
inductive FsOp where
  | openTrunc (path : String)
  | writeStr (path : String) (s : String)
  | closeFile (path : String)
  | renameFile (src : String) (dst : String)
  deriving DecidableEq

/-- The operation trace of `create_latex_document` (`pdf-to-beamer.py`,
lines 126–131): `open(output_file, "w")` truncates (or creates) the
final file in place, the single `f.write` appends the cleaned markup
plus newline, and the `with` block closes the file.  No temporary file
and no rename appear in the trace. -/
def createLatexDocumentOps (frame outputFile : String) : List FsOp :=
  [.openTrunc outputFile,
   .writeStr outputFile (createLatexFileContent frame),
   .closeFile outputFile]

/-- Effect of one operation on the observable file contents (`none`
means the path does not exist). -/
def applyFsOp (st : String → Option String) : FsOp → String → Option String
  | .openTrunc p => fun q => if q = p then some "" else st q
  | .writeStr p s => fun q => if q = p then some ((st p).getD "" ++ s) else st q
  | .closeFile _ => st
  | .renameFile src dst =>
    fun q => if q = dst then st src else if q = src then none else st q

def runFsOps : List FsOp → (String → Option String) → String → Option String
  | [], st => st
  | op :: rest, st => runFsOps rest (applyFsOp st op)

/-- A filesystem with no files. -/
def emptyFs : String → Option String := fun _ => none

def FsOp.isRename : FsOp → Bool
  | .renameFile _ _ => true
  | _ => false

theorem string_empty_append (s : String) : "" ++ s = s := by
  cases s
  rfl

/-- Counterexample to C5: after the opening truncation — a state
reachable mid-operation, e.g. if the process dies before the write
completes — the artifact file exists with empty content, which is
neither absent nor the full cleaned markup; so the write is not atomic
from the caller's perspective. -/
theorem createLatex_partial_state_observable :
    runFsOps ((createLatexDocumentOps "X" "doc_page_0.tex").take 1) emptyFs
        "doc_page_0.tex" = some "" ∧
    createLatexFileContent "X" = "X" ++ "\n" ∧
    some "" ≠ (none : Option String) ∧
    ("" : String) ≠ "X" ++ "\n" := by
  refine ⟨by decide, by decide, by decide, by decide⟩

/-- C5 (amended): `create_latex_document` writes the cleaned markup
directly to the final artifact path — open-truncate, one write, close —
so after the operation completes the full cleaned markup is on disk
under the artifact name; but no temp-file-then-rename discipline is
used (the trace contains no rename), and the truncated intermediate
state is observable mid-operation
(`createLatex_partial_state_observable`). -/
theorem createLatex_direct_write_completes (frame outputFile : String)
    (st : String → Option String) :
    runFsOps (createLatexDocumentOps frame outputFile) st outputFile =
      some (createLatexFileContent frame) ∧
    (createLatexDocumentOps frame outputFile).all
      (fun op => ! op.isRename) = true := by
  constructor
  · show (fun q => if q = outputFile then
        some ((((fun q => if q = outputFile then some "" else st q) outputFile).getD "")
          ++ createLatexFileContent frame)
      else (fun q => if q = outputFile then some "" else st q) q) outputFile =
      some (createLatexFileContent frame)
    simp [string_empty_append]
  · rfl
